import Mathlib

/-!
Verification development for the client-side physics formula collection app
(`src/main.js`).  The JavaScript is shallowly embedded: DOM elements become
records, the mutable `STATE` maps become lists, JS strings become Lean
`String` (a list of characters), JS numbers driving the physics simulation
become rationals, and each stateful method becomes an explicit state
transformer.  JS string methods (`toLowerCase`, `trim`, `includes`,
`String.prototype.replace` with a global case-insensitive literal pattern)
are modelled character-wise on `String.data`.
-/

namespace Noter

/-! ### Models of the JS string primitives used by main.js -/

/-- JS `String.prototype.toLowerCase`, modelled character-wise. -/
def jsToLower (s : String) : String := String.mk (s.data.map Char.toLower)

/-- JS `String.prototype.trim`: strip leading and trailing whitespace. -/
def jsTrim (s : String) : String :=
  String.mk (((s.data.dropWhile Char.isWhitespace).reverse.dropWhile
    Char.isWhitespace).reverse)

/-- Helper for JS `haystack.includes(pat)`: does `pat` occur in the list? -/
def jsIncludesL (pat : List Char) : List Char → Bool
  | [] => pat.isPrefixOf []
  | c :: cs => pat.isPrefixOf (c :: cs) || jsIncludesL pat cs

/-- JS `s.includes(pat)` (case-sensitive substring test). -/
def strIncludes (s pat : String) : Bool := jsIncludesL pat.data s.data

/-- Case-insensitive "starts with": `pat` (already lowercase) matches the
front of `s` up to `Char.toLower`, as the `i` flag of a JS regex does for a
lowercase literal pattern. -/
def ciStartsWith : List Char → List Char → Bool
  | [], _ => true
  | _ :: _, [] => false
  | p :: ps, c :: cs => (Char.toLower c == p) && ciStartsWith ps cs

/-- Case-insensitive occurrence test (lowercase pattern `pat` inside `s`). -/
def ciIncludesL (pat : List Char) : List Char → Bool
  | [] => ciStartsWith pat []
  | c :: cs => ciStartsWith pat (c :: cs) || ciIncludesL pat cs

/-- `s` contains the lowercase pattern `pat` case-insensitively. -/
def ciIncludes (s pat : String) : Bool := ciIncludesL pat.data s.data

/-- The opening tag inserted by SearchManager.handleSearch's replacement
template `<mark class="highlight">$1</mark>`. -/
def markOpen : String := "<mark class=\"highlight\">"

/-- The closing tag of the highlight template. -/
def markClose : String := "</mark>"

/-- One pass of JS `content.replace(new RegExp('(' + q + ')', 'gi'), m)` for
a metacharacter-free lowercase query `q`: scan left to right, wrap each
leftmost non-overlapping case-insensitive occurrence of `q` in the mark
tags, keeping the matched text (`$1`) verbatim.  Structural fuel (the
length of the remaining input suffices, since each step consumes at least
one character). -/
def highlightGo (q : List Char) : Nat → List Char → List Char
  | _, [] => []
  | 0, c :: cs => c :: cs
  | n + 1, c :: cs =>
    if ciStartsWith q (c :: cs) then
      markOpen.data ++ (c :: cs).take q.length ++ markClose.data
        ++ highlightGo q n ((c :: cs).drop q.length)
    else
      c :: highlightGo q n cs

/-- The global case-insensitive replace performed on a matching item's saved
content (`element.dataset.originalContent.replace(regex, ...)`). -/
def ciReplaceAll (q s : String) : String :=
  String.mk (highlightGo q.data s.data.length s.data)

/-- JS truthiness of a possibly-absent dataset string
(`element.dataset.originalContent`): absent and empty are falsy. -/
def truthyOpt : Option String → Bool
  | none => false
  | some s => s != ""

/-- `event.target.value.toLowerCase().trim()` at the top of handleSearch. -/
def cleanQuery (raw : String) : String := jsTrim (jsToLower raw)

/-- The characters that are metacharacters of a JS regular-expression
pattern: handleSearch builds `new RegExp('(' + query + ')', 'gi')` from the
raw query text, so only these characters can make the pattern deviate from
a literal match (braces written by code point). -/
def regexMeta (c : Char) : Bool :=
  c = '\\' || c = '^' || c = '$' || c = '.' || c = '*' || c = '+' ||
    c = '?' || c = '(' || c = ')' || c = '[' || c = ']' ||
    c = '\x7b' || c = '\x7d' || c = '|'

/-- Queries containing no regex metacharacter build a JS RegExp that
matches exactly the literal case-insensitive occurrences of the query
(spaces, hyphens, underscores and any other ordinary character are
allowed). -/
def regexSafe (s : String) : Bool := s.data.all fun c => !(regexMeta c)

/-- Number of (possibly overlapping) case-insensitive occurrences of the
lowercase pattern `q` in `s`: one per starting position. -/
def countOccCI (q s : String) : Nat :=
  ((List.range (s.data.length + 1)).filter fun i =>
    ciStartsWith q.data (s.data.drop i)).length

/-- Number of occurrences of `pat` in `s` (one per starting position). -/
def countSub (pat s : String) : Nat :=
  ((List.range (s.data.length + 1)).filter fun i =>
    pat.data.isPrefixOf (s.data.drop i)).length

/-! ### Chapter cache (ChapterManager.getCachedChapters / cacheChapters)

`STATE.chapterCache` only ever holds the single key `'chapters'`, so it is
modelled as an `Option` of its entry; times are milliseconds. -/

/-- CONFIG.CACHE_DURATION: 10 minutes in ms. -/
def CACHE_DURATION : Int := 600000

/-- The value stored under `'chapters'`: `{ content, timestamp }`. -/
structure CacheEntry where
  content : String
  timestamp : Int
deriving DecidableEq

/-- ChapterManager.cacheChapters: `chapterCache.set('chapters', { content,
timestamp: Date.now() })`. -/
def cacheChapters (content : String) (now : Int) : Option CacheEntry :=
  some { content := content, timestamp := now }

/-- ChapterManager.getCachedChapters, returning the lookup result together
with the cache afterwards: a missing entry yields `none`; an entry older
than CACHE_DURATION is deleted and yields `none`; otherwise the stored
content is returned and the entry kept. -/
def getCachedChapters (cache : Option CacheEntry) (now : Int) :
    Option String × Option CacheEntry :=
  match cache with
  | none => (none, none)
  | some e =>
    if now - e.timestamp > CACHE_DURATION then (none, none)
    else (some e.content, some e)

/-! ### Fragment loading (ChapterManager.loadChapters, cache-miss path) -/

/-- CONFIG.CHAPTERS_TO_LOAD. -/
def CHAPTERS_TO_LOAD : List String := ["kinematics.html", "dynamics.html"]

/-- Outcome of `fetch` + `response.text()` for one fragment file: the
fragment's HTML on success, or a failure (a non-ok response or a thrown
error, both of which land in the per-file catch). -/
inductive FetchOutcome where
  | ok (html : String)
  | failed
deriving DecidableEq

/-- Did the fetch succeed? -/
def FetchOutcome.isOk : FetchOutcome → Bool
  | .ok _ => true
  | .failed => false

/-- The per-file promise body: the fragment HTML on success, and on any
per-file error the fixed placeholder naming the failed file. -/
def fragmentResult (file : String) : FetchOutcome → String
  | .ok html => html
  | .failed => "<div class=\"chapter error\">Failed to load " ++ file ++ "</div>"

/-- `chapterHtmls.join('')`: per-file results joined in the order of
CONFIG.CHAPTERS_TO_LOAD (Promise.all preserves the order of the mapped
list). -/
def loadContent (outcome : String → FetchOutcome) : String :=
  String.join (CHAPTERS_TO_LOAD.map fun f => fragmentResult f (outcome f))

/-- `STATE.loadedChapters` after the batch: only files whose fetch (and
text decode) succeeded were added. -/
def loadedChapters (outcome : String → FetchOutcome) : List String :=
  CHAPTERS_TO_LOAD.filter fun f => (outcome f).isOk

/-- The cache-miss path of loadChapters: inject the joined content and then
cache it (`this.cacheChapters(content)`). -/
def loadChaptersMiss (outcome : String → FetchOutcome) (now : Int) :
    String × Option CacheEntry :=
  let content := loadContent outcome
  (content, cacheChapters content now)

/-- Concrete fetch outcome used to exercise the loader theorems: the first
configured file succeeds, everything else fails. -/
def outcomeW : String → FetchOutcome := fun f =>
  if f = "kinematics.html" then .ok "<section>kin</section>" else .failed

/-! ### Search index (ChapterManager.buildSearchIndex)

The loaded document is modelled as the list of `.chapter` elements in
document order, each with its `.formula-item` descendants in document
order. -/

/-- A `.formula-item` element, identified by `elemId`, with its
`textContent`. -/
structure ItemDoc where
  elemId : Nat
  textContent : String
deriving DecidableEq

/-- A `.chapter` element with its `h2` title and its formula items. -/
structure ChapterDoc where
  chapId : Nat
  title : String
  items : List ItemDoc
deriving DecidableEq

/-- One entry pushed by buildSearchIndex: `{ element, chapter, chapterTitle,
text: item.textContent.toLowerCase() }` (the `title` field of the JS object
is display-only and omitted). -/
structure IndexEntry where
  element : ItemDoc
  chapId : Nat
  chapterTitle : String
  text : String
deriving DecidableEq

/-- ChapterManager.buildSearchIndex: for each chapter in document order, for
each formula item in it in document order, push one entry. -/
def buildSearchIndex (doc : List ChapterDoc) : List IndexEntry :=
  doc.flatMap fun ch => ch.items.map fun it =>
    { element := it, chapId := ch.chapId, chapterTitle := ch.title,
      text := jsToLower it.textContent }

/-! ### Search state (SearchManager.handleSearch / clearSearch)

`st.items` are the indexed formula items (buildSearchIndex covers every
formula item of the document), carrying the index's `text` snapshot, the
element's mutable `innerHTML`, its `dataset.originalContent` (absent =
`none`) and its `hidden` class; `st.chapters` carry the chapters' `hidden`
and `active` classes. -/

/-- A formula item as seen by SearchManager. -/
structure SItem where
  text : String
  chapId : Nat
  html : String
  originalContent : Option String
  hidden : Bool
deriving DecidableEq

/-- A chapter as seen by SearchManager. -/
structure SChapter where
  chapId : Nat
  hidden : Bool
  active : Bool
deriving DecidableEq

/-- Search-relevant page state. -/
structure SearchState where
  items : List SItem
  chapters : List SChapter
  noResultsHidden : Bool
deriving DecidableEq

/-- Does the indexed item match the cleaned query (`text.includes(query)`)? -/
def itemMatches (q : String) (it : SItem) : Bool := strIncludes it.text q

/-- The body of handleSearch's per-entry loop: toggle `hidden`, and on a
match save `originalContent` if absent-or-empty and rebuild `innerHTML`
from it with every leftmost non-overlapping occurrence highlighted; on a
non-match with a truthy saved copy, restore the saved copy (without
deleting it). -/
def searchItemStep (q : String) (it : SItem) : SItem :=
  let m := itemMatches q it
  let it1 : SItem := { it with hidden := !m }
  if m then
    let oc := if truthyOpt it1.originalContent then it1.originalContent
              else some it1.html
    { it1 with originalContent := oc, html := ciReplaceAll q (oc.getD "") }
  else if truthyOpt it1.originalContent then
    { it1 with html := it1.originalContent.getD "" }
  else it1

/-- The per-chapter pass of handleSearch: a chapter is `hidden` unless some
matching indexed item lies in it, and a chapter with a match is
auto-expanded (`toggleChapter(chapter, true)` adds the `active` class). -/
def chapterSearchStep (q : String) (items : List SItem) (c : SChapter) :
    SChapter :=
  let hasMatch := items.any fun it => it.chapId == c.chapId && itemMatches q it
  { c with hidden := !hasMatch, active := hasMatch || c.active }

/-- The per-item body of clearSearch: remove `hidden`; if the saved copy is
truthy, restore it into `innerHTML` and delete it. -/
def clearItemStep (it : SItem) : SItem :=
  let it1 : SItem := { it with hidden := false }
  if truthyOpt it1.originalContent then
    { it1 with html := it1.originalContent.getD "", originalContent := none }
  else it1

/-- SearchManager.clearSearch: reset every formula item, unhide every
chapter, hide the no-results message. -/
def clearSearchState (st : SearchState) : SearchState :=
  { items := st.items.map clearItemStep,
    chapters := st.chapters.map fun c => { c with hidden := false },
    noResultsHidden := true }

/-- SearchManager.handleSearch: clean the query; an empty query clears the
search; otherwise filter items, filter chapters, and hide the no-results
message exactly when some item matched. -/
def handleSearch (raw : String) (st : SearchState) : SearchState :=
  let q := cleanQuery raw
  if q = "" then clearSearchState st
  else
    { items := st.items.map (searchItemStep q),
      chapters := st.chapters.map (chapterSearchStep q st.items),
      noResultsHidden := st.items.any (itemMatches q) }

/-- The index data carried by an item (element text snapshot and owning
chapter); searching never rewrites these. -/
def itemKey (it : SItem) : String × Nat := (it.text, it.chapId)

/-- Concrete document used to exercise the index theorem. -/
def docW : List ChapterDoc :=
  [{ chapId := 1, title := "Chapter 1",
     items := [{ elemId := 7, textContent := "Velocity V" }] }]

/-- The single index entry built from `docW`. -/
def entryW : IndexEntry :=
  { element := { elemId := 7, textContent := "Velocity V" },
    chapId := 1, chapterTitle := "Chapter 1", text := "velocity v" }

/-- Concrete search state used to exercise the search theorems. -/
def stW : SearchState :=
  { items := [{ text := "xaby", chapId := 0, html := "xABy",
                originalContent := none, hidden := false }],
    chapters := [{ chapId := 0, hidden := false, active := false }],
    noResultsHidden := true }

/-- Relation between a pristine item (its pre-search `html`, indexed `text`
and chapter) and its state after any number of searches: either nothing was
ever saved and the `html` is untouched, or the pristine `html` (necessarily
truthy) is saved in `originalContent`. -/
def ItemInv (h0 tx : String) (cid : Nat) (it : SItem) : Prop :=
  it.text = tx ∧ it.chapId = cid ∧
    ((it.originalContent = none ∧ it.html = h0)
      ∨ (it.originalContent = some h0 ∧ h0 ≠ ""))

/-- Concrete search state for the overlap counterexample. -/
def stOverlap : SearchState :=
  { items := [{ text := "aaa", chapId := 0, html := "aaa",
                originalContent := none, hidden := false }],
    chapters := [], noResultsHidden := true }

/-! ### Lazy loading (LazyLoader.handleIntersection)

Elements are identified by `Nat`; `hasInit e` says whether
`PLOT_INITIALIZERS[element.dataset.plotId]` exists for element `e`.
`observed` models the `STATE.observedElements` WeakMap (as the set of keys),
and `inits` logs, in order, each element on which the bound plot startup
function was run. -/

/-- Lazy-loader state. -/
structure LazyState where
  observed : List Nat
  inits : List Nat
deriving DecidableEq

/-- Events affecting the lazy loader: an IntersectionObserver entry for an
element, or ChapterManager.cleanupChapterResources deleting the listed
plot elements from `observedElements` on a chapter collapse. -/
inductive LazyEvent where
  | intersection (elem : Nat) (isIntersecting : Bool)
  | cleanup (elems : List Nat)
deriving DecidableEq

/-- One entry of LazyLoader.handleIntersection: if the entry is
intersecting and the element is not marked in `observedElements`, mark it
and run `initializePlot`, which invokes the bound startup function exactly
when one is registered for the element's plot id. -/
def handleIntersectionEntry (hasInit : Nat → Bool) (st : LazyState)
    (elem : Nat) (isIntersecting : Bool) : LazyState :=
  if isIntersecting && !(st.observed.contains elem) then
    { observed := elem :: st.observed,
      inits := if hasInit elem then st.inits ++ [elem] else st.inits }
  else st

/-- One event: an observer entry, or the `observedElements.delete(plot)`
performed for each plot of a collapsing chapter. -/
def lazyStep (hasInit : Nat → Bool) (st : LazyState) : LazyEvent → LazyState
  | .intersection e b => handleIntersectionEntry hasInit st e b
  | .cleanup es => { st with observed := st.observed.filter fun x => !(es.contains x) }

/-- Run a trace of events from the initial empty state. -/
def lazyRun (hasInit : Nat → Bool) (evts : List LazyEvent) : LazyState :=
  evts.foldl (lazyStep hasInit) { observed := [], inits := [] }

/-- Is this event a visibility (intersecting) event for element `e`? -/
def isVisibleEvent (e : Nat) : LazyEvent → Bool
  | .intersection e2 b => e2 == e && b
  | .cleanup _ => false

/-- Does this event leave element `e`'s observed mark alone? -/
def noCleanupOf (e : Nat) : LazyEvent → Bool
  | .intersection _ _ => true
  | .cleanup es => !(es.contains e)

/-! ### Widget resource cleanup (ChapterManager.toggleChapter /
toggleSubsection / cleanupChapterResources)

`activeCharts` and `activeAnimations` model the keys of the corresponding
`STATE` Maps; `destroyed` and `stopped` log each `chart.destroy()` and
`controller.stop()` call. -/

/-- Registry state. -/
structure WState where
  activeCharts : List String
  activeAnimations : List String
  destroyed : List String
  stopped : List String
deriving DecidableEq

/-- First if-block of cleanupChapterResources' per-plot body: if the chart
registry has the plot id, destroy the chart and delete the key (a Map
delete removes exactly that key). -/
def destroyChartStep (st : WState) (pid : String) : WState :=
  if st.activeCharts.contains pid then
    { st with activeCharts := st.activeCharts.filter fun k => k != pid,
              destroyed := st.destroyed ++ [pid] }
  else st

/-- Second if-block: if the animation registry has the plot id, stop the
animation and delete the key. -/
def stopAnimStep (st : WState) (pid : String) : WState :=
  if st.activeAnimations.contains pid then
    { st with activeAnimations := st.activeAnimations.filter fun k => k != pid,
              stopped := st.stopped ++ [pid] }
  else st

/-- The per-plot body of cleanupChapterResources: destroy and delete a
registered chart, then stop and delete a registered animation.  (The
`observedElements.delete(plot)` it also performs is modelled by
`LazyEvent.cleanup`.) -/
def cleanupPlot (st : WState) (pid : String) : WState :=
  stopAnimStep (destroyChartStep st pid) pid

/-- ChapterManager.cleanupChapterResources over the chapter's
`.interactive-plot[data-plot-id]` elements. -/
def cleanupChapterResources (plots : List String) (st : WState) : WState :=
  plots.foldl cleanupPlot st

/-- A `.chapter` element: its `active` class, whether it has a
`.chapter-content` child (without one toggleChapter returns early), and the
plot ids inside it. -/
structure ChapterNode where
  active : Bool
  hasContent : Bool
  plots : List String
deriving DecidableEq

/-- ChapterManager.toggleChapter: resolve the target state from
`forceState` (default: negate the `active` class); expanding only adds the
class (sizing styles omitted), collapsing removes it and runs
cleanupChapterResources. -/
def toggleChapter (ch : ChapterNode) (forceState : Option Bool) (st : WState) :
    ChapterNode × WState :=
  if !ch.hasContent then (ch, st)
  else
    let isActive := forceState.getD (!ch.active)
    if isActive then ({ ch with active := true }, st)
    else ({ ch with active := false }, cleanupChapterResources ch.plots st)

/-- A `.subsection` element with its contained plot ids. -/
structure SubsectionNode where
  active : Bool
  hasContent : Bool
  plots : List String
deriving DecidableEq

/-- ChapterManager.toggleSubsection: resolve the target state and toggle
the `active` class and max-height/icon styles; it touches no registry. -/
def toggleSubsection (sub : SubsectionNode) (forceState : Option Bool)
    (st : WState) : SubsectionNode × WState :=
  if !sub.hasContent then (sub, st)
  else
    let isActive := forceState.getD (!sub.active)
    ({ sub with active := isActive }, st)

/-- Concrete chapter used to exercise the cleanup theorem. -/
def chW : ChapterNode := { active := true, hasContent := true, plots := ["p1"] }

/-- Concrete registries used to exercise the cleanup theorem. -/
def wstW : WState :=
  { activeCharts := ["p1"], activeAnimations := ["p1"],
    destroyed := [], stopped := [] }

/-! ### Load-failure recovery (ChapterManager.showError and the retry
button)

`loadCalls` counts invocations of loadChapters; `retryListeners` counts the
click listeners attached to `#retry-load` (showError adds one on each
failure, and a click runs them all, each hiding the error, re-showing the
container, and calling loadChapters). -/

/-- Recovery-relevant UI state. -/
structure UIState where
  containerHidden : Bool
  errorHidden : Bool
  errorMessage : String
  loadCalls : Nat
  retryListeners : Nat
deriving DecidableEq

/-- ChapterManager.showError: hide the content container, show the error
container with the error's message, and attach a retry-click listener. -/
def showError (msg : String) (st : UIState) : UIState :=
  { st with containerHidden := true, errorHidden := false, errorMessage := msg,
            retryListeners := st.retryListeners + 1 }

/-- A click on `#retry-load`: every attached listener hides the error
container, re-shows the content container, and calls loadChapters. -/
def clickRetry (st : UIState) : UIState :=
  { st with errorHidden := true, containerHidden := false,
            loadCalls := st.loadCalls + st.retryListeners }

/-! ### Force-analysis simulation (PLOT_INITIALIZERS['force-analysis-sim'])

The JS numbers are modelled as rationals.  `speed` is
`STATE.animationSpeed`. -/

/-- `g = 9.81`. -/
def gConst : ℚ := 981 / 100

/-- CONFIG.ANIMATION_FPS. -/
def ANIMATION_FPS : ℚ := 60

/-- Simulation state (`state` in the initializer closure). -/
structure SimState where
  mass : ℚ
  force : ℚ
  friction : ℚ
  position : ℚ
  velocity : ℚ
  maxPosition : ℚ
  time : ℚ
deriving DecidableEq

/-- `dt = (1 / CONFIG.ANIMATION_FPS) * STATE.animationSpeed`. -/
def simDt (speed : ℚ) : ℚ := (1 / ANIMATION_FPS) * speed

/-- The velocity after one animate frame:
`velocity += acceleration * dt; velocity = Math.max(0, velocity)`, with
friction applied only while moving forward. -/
def stepVelocity (speed : ℚ) (st : SimState) : ℚ :=
  let dt := simDt speed
  let normalForce := st.mass * gConst
  let frictionForce := st.friction * normalForce
  let netForce := st.force - (if st.velocity > 0 then frictionForce else 0)
  let acceleration := netForce / st.mass
  max 0 (st.velocity + acceleration * dt)

/-- The position before the boundary check:
`position += velocity * dt * 10`. -/
def stepRawPosition (speed : ℚ) (st : SimState) : ℚ :=
  st.position + stepVelocity speed st * simDt speed * 10

/-- One animate frame: update velocity and position, then clamp — only when
the new position strictly exceeds `maxPosition` is it clamped there and the
velocity zeroed. -/
def animateStep (speed : ℚ) (st : SimState) : SimState :=
  let v := stepVelocity speed st
  let p := stepRawPosition speed st
  if p > st.maxPosition then
    { st with position := st.maxPosition, velocity := 0,
              time := st.time + simDt speed }
  else
    { st with position := p, velocity := v, time := st.time + simDt speed }

/-- The `reset` handler: zero position, velocity and time. -/
def resetSim (st : SimState) : SimState :=
  { st with position := 0, velocity := 0, time := 0 }

/-- The claimed invariant: nonnegative velocity and position within
`[0, maxPosition]`. -/
def SimInv (st : SimState) : Prop :=
  0 ≤ st.velocity ∧ 0 ≤ st.position ∧ st.position ≤ st.maxPosition

/-- Concrete in-range simulation state used to exercise the invariant
theorem. -/
def simW : SimState :=
  { mass := 10, force := 50, friction := 1/5, position := 0, velocity := 0,
    maxPosition := 550, time := 0 }

/-- Concrete simulation state one frame away from landing exactly on
`maxPosition` (canvas width 600): the frame ends with
`position = maxPosition` and velocity `6`. -/
def simCexState : SimState :=
  { mass := 10, force := 50, friction := 1/5, position := 549,
    velocity := 178481/30000, maxPosition := 550, time := 0 }

/-! ## Theorems -/

/-- Claim C3: the chapter cache holds the concatenation for a fixed time
window — a lookup at most CACHE_DURATION (600000 ms) after the content was
stored returns exactly the stored string (and keeps the entry), and a
lookup strictly later than CACHE_DURATION after storage returns nothing and
deletes the expired entry. -/
theorem getCachedChapters_window (content : String) (t now : Int) :
    (now - t ≤ CACHE_DURATION →
      getCachedChapters (cacheChapters content t) now
        = (some content, cacheChapters content t))
    ∧ (now - t > CACHE_DURATION →
      getCachedChapters (cacheChapters content t) now = (none, none)) := by
  constructor <;> intro h
  · simp only [getCachedChapters, cacheChapters]
    rw [if_neg (by simp only [CACHE_DURATION] at h ⊢; omega)]
  · simp only [getCachedChapters, cacheChapters]
    rw [if_pos (by simp only [CACHE_DURATION] at h ⊢; omega)]

/-- Witness for C3 at the boundary: a lookup exactly CACHE_DURATION after
storing still returns the content; one millisecond later it is expired. -/
theorem getCachedChapters_window_witness :
    getCachedChapters (cacheChapters "html" 0) 600000
      = (some "html", cacheChapters "html" 0)
    ∧ getCachedChapters (cacheChapters "html" 0) 600001 = (none, none) :=
  ⟨(getCachedChapters_window "html" 0 600000).1 (by decide),
   (getCachedChapters_window "html" 0 600001).2 (by decide)⟩

/-- Claim C4: on a cache miss the loader fetches exactly the files of the
fixed configured list CHAPTERS_TO_LOAD, and for every combination of
per-file results the injected content is the per-file results joined in the
order of that list, and exactly that content is then cached. -/
theorem loadChaptersMiss_spec (outcome : String → FetchOutcome) (now : Int) :
    CHAPTERS_TO_LOAD = ["kinematics.html", "dynamics.html"]
    ∧ (loadChaptersMiss outcome now).1
        = fragmentResult "kinematics.html" (outcome "kinematics.html")
          ++ fragmentResult "dynamics.html" (outcome "dynamics.html")
    ∧ (loadChaptersMiss outcome now).2
        = cacheChapters (loadChaptersMiss outcome now).1 now := by
  refine ⟨rfl, ?_, rfl⟩
  show String.join [fragmentResult "kinematics.html" (outcome "kinematics.html"),
    fragmentResult "dynamics.html" (outcome "dynamics.html")] = _
  simp [String.join]

/-- Claim C7: on a load failure, showError hides the content container and
shows the error container with the error's message; a click on the retry
button then hides the error container, re-shows the content container, and
runs the chapter load again; nothing else changes (the message and the
attached listeners are left as they were). -/
theorem showError_retry_spec (msg : String) (st : UIState) :
    (showError msg st).containerHidden = true
    ∧ (showError msg st).errorHidden = false
    ∧ (showError msg st).errorMessage = msg
    ∧ (clickRetry (showError msg st)).errorHidden = true
    ∧ (clickRetry (showError msg st)).containerHidden = false
    ∧ (clickRetry (showError msg st)).loadCalls
        ≥ (showError msg st).loadCalls + 1
    ∧ (clickRetry (showError msg st)).errorMessage
        = (showError msg st).errorMessage
    ∧ (clickRetry (showError msg st)).retryListeners
        = (showError msg st).retryListeners := by
  refine ⟨rfl, rfl, rfl, rfl, rfl, ?_, rfl, rfl⟩
  simp [clickRetry, showError]

/-- Claim C8: a fetch failure for one fragment is isolated — a failed file
contributes the fixed error placeholder naming it, a successful file
contributes its HTML, the loaded-chapters set records exactly the
successfully fetched files, and each position of the joined batch carries
the per-file result of the file configured at that position (the batch as a
whole always resolves). -/
theorem loadChapters_isolation (outcome : String → FetchOutcome) :
    (∀ f ∈ CHAPTERS_TO_LOAD, outcome f = .failed →
        fragmentResult f (outcome f)
          = "<div class=\"chapter error\">Failed to load " ++ f ++ "</div>")
    ∧ (∀ f ∈ CHAPTERS_TO_LOAD, ∀ h, outcome f = .ok h →
        fragmentResult f (outcome f) = h)
    ∧ (∀ f, f ∈ loadedChapters outcome
        ↔ f ∈ CHAPTERS_TO_LOAD ∧ (outcome f).isOk = true)
    ∧ ∀ i, (hi : i < CHAPTERS_TO_LOAD.length) →
        (CHAPTERS_TO_LOAD.map fun f => fragmentResult f (outcome f)).get
            ⟨i, by simpa using hi⟩
          = fragmentResult (CHAPTERS_TO_LOAD.get ⟨i, hi⟩)
              (outcome (CHAPTERS_TO_LOAD.get ⟨i, hi⟩)) := by
  refine ⟨?_, ?_, ?_, ?_⟩
  · intro f _ hf; rw [hf]; rfl
  · intro f _ h hf; rw [hf]; rfl
  · intro f; simp [loadedChapters, List.mem_filter]
  · intro i hi
    match i, hi with
    | 0, _ => rfl
    | 1, _ => rfl

/-- Witness for C8: with the first configured file succeeding and the
second failing, the failed file yields the placeholder and only the
successful file is recorded as loaded. -/
theorem loadChapters_isolation_witness :
    fragmentResult "dynamics.html" (outcomeW "dynamics.html")
      = "<div class=\"chapter error\">Failed to load dynamics.html</div>"
    ∧ fragmentResult "kinematics.html" (outcomeW "kinematics.html")
      = "<section>kin</section>" := by
  refine ⟨(loadChapters_isolation outcomeW).1 "dynamics.html" (by decide)
      (by decide), ?_⟩
  exact (loadChapters_isolation outcomeW).2.1 "kinematics.html" (by decide)
    "<section>kin</section>" (by decide)

/-- Counterexample to C1 as stated: after a chapter collapse runs
`cleanupChapterResources`, which deletes the element from
`observedElements` ("Mark as unobserved so it can be re-initialized if
opened again"), a later visibility event invokes the bound plot startup
function a second time — so "later visibility events for that element never
invoke the initializer again" fails on this trace. -/
theorem lazyRun_reinit_cex :
    ¬ ((lazyRun (fun _ => true)
        [LazyEvent.intersection 0 true, LazyEvent.cleanup [0],
         LazyEvent.intersection 0 true]).inits.count 0 ≤ 1) := by decide

/-- Effect of one lazy-loader event on element `e` (whose plot id has a
bound startup function), provided the event is not a cleanup touching `e`:
the invocation log grows by one exactly when the event is a visibility
event for a not-yet-observed `e`, and afterwards `e` is observed iff it was
before or the event made it visible. -/
theorem lazyStep_effect (hasInit : Nat → Bool) (e : Nat)
    (hinit : hasInit e = true) (st : LazyState) (ev : LazyEvent)
    (hev : noCleanupOf e ev = true) :
    ((lazyStep hasInit st ev).inits.count e
        = st.inits.count e
          + (if isVisibleEvent e ev = true ∧ e ∉ st.observed then 1 else 0))
    ∧ (e ∈ (lazyStep hasInit st ev).observed
        ↔ e ∈ st.observed ∨ isVisibleEvent e ev = true) := by
  cases ev with
  | intersection e2 b =>
    simp only [lazyStep, handleIntersectionEntry, List.contains,
      List.elem_eq_mem]
    cases b with
    | false => simp [isVisibleEvent]
    | true =>
      by_cases he2 : e2 = e
      · subst he2
        by_cases hm : e2 ∈ st.observed
        · simp [isVisibleEvent, hm]
        · simp [isVisibleEvent, hm, hinit, List.count_append]
      · have he2' : e ≠ e2 := fun h => he2 h.symm
        by_cases hm : e2 ∈ st.observed
        · simp [isVisibleEvent, hm, he2, he2']
        · simp [isVisibleEvent, hm, he2, he2', List.count_append,
            apply_ite (List.count e)]
  | cleanup es =>
    have hes : e ∉ es := by
      simpa [noCleanupOf, List.contains, List.elem_eq_mem] using hev
    constructor
    · simp [lazyStep, isVisibleEvent]
    · simp [lazyStep, isVisibleEvent, List.mem_filter, List.contains,
        List.elem_eq_mem, hes]

/-- Fold invariant for the lazy loader: along a trace whose cleanups never
touch element `e` (with a startup function bound to `e`), the invocation
count of `e` grows by one exactly when `e` was unobserved at the start and
some visibility event for it occurs, and at the end `e` is observed iff it
was at the start or some visibility event for it occurred. -/
theorem lazyFold_spec (hasInit : Nat → Bool) (e : Nat)
    (hinit : hasInit e = true) :
    ∀ (evts : List LazyEvent) (st : LazyState),
      evts.all (noCleanupOf e) = true →
      ((evts.foldl (lazyStep hasInit) st).inits.count e
          = st.inits.count e
            + (if e ∉ st.observed ∧ evts.any (isVisibleEvent e) = true then 1
               else 0))
      ∧ (e ∈ (evts.foldl (lazyStep hasInit) st).observed
          ↔ e ∈ st.observed ∨ evts.any (isVisibleEvent e) = true) := by
  intro evts
  induction evts with
  | nil => intro st _; simp
  | cons ev rest ih =>
    intro st hall
    rw [List.all_cons, Bool.and_eq_true] at hall
    obtain ⟨hev, hrest⟩ := hall
    rw [List.foldl_cons]
    obtain ⟨hs1, hs2⟩ := lazyStep_effect hasInit e hinit st ev hev
    obtain ⟨h1, h2⟩ := ih (lazyStep hasInit st ev) hrest
    rw [List.any_cons]
    constructor
    · rw [h1, hs1]
      by_cases hv : isVisibleEvent e ev = true <;>
        by_cases ho : e ∈ st.observed <;>
        by_cases ha : rest.any (isVisibleEvent e) = true <;>
        simp [hv, ho, ha, hs2]
    · rw [h2]
      by_cases hv : isVisibleEvent e ev = true <;>
        by_cases ho : e ∈ st.observed <;>
        simp [hv, ho, hs2]

/-- Claim C1 (amended): provided no chapter collapse removes the element
from `observedElements` along the trace, the startup function bound to the
element's plot id is invoked exactly once if the element ever becomes
visible (at its first visibility event) and never otherwise; a cleanup
re-arms the element, after which it can be invoked once more (see
`lazyRun_reinit_cex`). -/
theorem lazyRun_invoked_once (hasInit : Nat → Bool) (evts : List LazyEvent)
    (e : Nat) (hinit : hasInit e = true)
    (hnc : evts.all (noCleanupOf e) = true) :
    (lazyRun hasInit evts).inits.count e
      = if evts.any (isVisibleEvent e) = true then 1 else 0 := by
  have h := (lazyFold_spec hasInit e hinit evts
    { observed := [], inits := [] } hnc).1
  simpa using h

/-- Witness for C1: element 3 is intersected three times (first without
intersecting); the log records exactly one invocation. -/
theorem lazyRun_invoked_once_witness :
    (lazyRun (fun _ => true)
      [LazyEvent.intersection 3 false, LazyEvent.intersection 3 true,
       LazyEvent.intersection 3 true]).inits.count 3
      = if ([LazyEvent.intersection 3 false, LazyEvent.intersection 3 true,
             LazyEvent.intersection 3 true].any (isVisibleEvent 3)) = true
        then 1 else 0 :=
  lazyRun_invoked_once (fun _ => true) _ 3 rfl (by decide)

/-- Counterexample to C2 as stated: collapsing a subsection that contains
plot `"p"` with an active chart leaves `"p"` in the active-charts registry —
toggleSubsection only toggles the class and styles and never runs
cleanupChapterResources, so "after the collapse no plot id inside the
collapsed container remains in either registry" fails for subsections. -/
theorem toggleSubsection_keeps_registry_cex :
    ((toggleSubsection { active := true, hasContent := true, plots := ["p"] }
        (some false)
        { activeCharts := ["p"], activeAnimations := [], destroyed := [],
          stopped := [] }).1.active = false)
    ∧ "p" ∈ (toggleSubsection
        { active := true, hasContent := true, plots := ["p"] } (some false)
        { activeCharts := ["p"], activeAnimations := [], destroyed := [],
          stopped := [] }).2.activeCharts := by decide

/-- stopAnimStep leaves the chart registry alone. -/
theorem stopAnimStep_charts (st : WState) (p : String) :
    (stopAnimStep st p).activeCharts = st.activeCharts := by
  unfold stopAnimStep; split <;> rfl

/-- stopAnimStep leaves the destroy log alone. -/
theorem stopAnimStep_destroyed (st : WState) (p : String) :
    (stopAnimStep st p).destroyed = st.destroyed := by
  unfold stopAnimStep; split <;> rfl

/-- destroyChartStep leaves the animation registry alone. -/
theorem destroyChartStep_anims (st : WState) (p : String) :
    (destroyChartStep st p).activeAnimations = st.activeAnimations := by
  unfold destroyChartStep; split <;> rfl

/-- destroyChartStep leaves the stop log alone. -/
theorem destroyChartStep_stopped (st : WState) (p : String) :
    (destroyChartStep st p).stopped = st.stopped := by
  unfold destroyChartStep; split <;> rfl

/-- cleanupPlot never adds chart keys. -/
theorem cleanupPlot_charts_subset (st : WState) (p x : String)
    (h : x ∈ (cleanupPlot st p).activeCharts) : x ∈ st.activeCharts := by
  rw [cleanupPlot, stopAnimStep_charts] at h
  unfold destroyChartStep at h
  split at h
  · exact (List.mem_filter.mp h).1
  · exact h

/-- cleanupPlot never adds animation keys. -/
theorem cleanupPlot_anims_subset (st : WState) (p x : String)
    (h : x ∈ (cleanupPlot st p).activeAnimations) :
    x ∈ st.activeAnimations := by
  rw [cleanupPlot] at h
  unfold stopAnimStep at h
  rw [← destroyChartStep_anims st p]
  split at h
  · exact (List.mem_filter.mp h).1
  · exact h

/-- After cleanupPlot on `p`, the chart registry no longer holds `p`. -/
theorem cleanupPlot_charts_notMem (st : WState) (p : String) :
    p ∉ (cleanupPlot st p).activeCharts := by
  rw [cleanupPlot, stopAnimStep_charts]
  unfold destroyChartStep
  split
  · intro h
    simpa using (List.mem_filter.mp h).2
  · intro h
    simp_all [List.contains, List.elem_eq_mem]

/-- After cleanupPlot on `p`, the animation registry no longer holds `p`. -/
theorem cleanupPlot_anims_notMem (st : WState) (p : String) :
    p ∉ (cleanupPlot st p).activeAnimations := by
  rw [cleanupPlot]
  unfold stopAnimStep
  split
  · intro h
    simpa using (List.mem_filter.mp h).2
  · intro h
    simp_all [List.contains, List.elem_eq_mem]

/-- The destroy log only grows. -/
theorem cleanupPlot_destroyed_mono (st : WState) (p x : String)
    (h : x ∈ st.destroyed) : x ∈ (cleanupPlot st p).destroyed := by
  rw [cleanupPlot, stopAnimStep_destroyed]
  unfold destroyChartStep
  split <;> simp [h]

/-- The stop log only grows. -/
theorem cleanupPlot_stopped_mono (st : WState) (p x : String)
    (h : x ∈ st.stopped) : x ∈ (cleanupPlot st p).stopped := by
  rw [cleanupPlot]
  unfold stopAnimStep
  split <;> simp [destroyChartStep_stopped, h]

/-- A chart key is only ever removed in the step that logs its
destruction. -/
theorem cleanupPlot_charts_union (st : WState) (p x : String)
    (h : x ∈ st.activeCharts ∨ x ∈ st.destroyed) :
    x ∈ (cleanupPlot st p).activeCharts ∨ x ∈ (cleanupPlot st p).destroyed := by
  rw [cleanupPlot, stopAnimStep_charts, stopAnimStep_destroyed]
  unfold destroyChartStep
  rcases h with h | h
  · by_cases hx : x = p
    · subst hx
      split <;> simp_all [List.contains, List.elem_eq_mem]
    · left
      split <;> simp_all [List.mem_filter]
  · right
    split <;> simp [h]

/-- An animation key is only ever removed in the step that logs its
stop. -/
theorem cleanupPlot_anims_union (st : WState) (p x : String)
    (h : x ∈ st.activeAnimations ∨ x ∈ st.stopped) :
    x ∈ (cleanupPlot st p).activeAnimations
      ∨ x ∈ (cleanupPlot st p).stopped := by
  rw [cleanupPlot]
  rw [← destroyChartStep_anims st p, ← destroyChartStep_stopped st p] at h
  unfold stopAnimStep
  rcases h with h | h
  · by_cases hx : x = p
    · subst hx
      split <;> simp_all [List.contains, List.elem_eq_mem]
    · left
      split <;> simp_all [List.mem_filter]
  · right
    split <;> simp [h]

/-- Fold version: charts only shrink across cleanupChapterResources. -/
theorem cleanupFold_charts_subset :
    ∀ (plots : List String) (st : WState) (x : String),
      x ∈ (cleanupChapterResources plots st).activeCharts →
      x ∈ st.activeCharts := by
  intro plots
  induction plots with
  | nil => intro st x h; exact h
  | cons p rest ih =>
    intro st x h
    exact cleanupPlot_charts_subset st p x (ih (cleanupPlot st p) x h)

/-- Fold version: animations only shrink. -/
theorem cleanupFold_anims_subset :
    ∀ (plots : List String) (st : WState) (x : String),
      x ∈ (cleanupChapterResources plots st).activeAnimations →
      x ∈ st.activeAnimations := by
  intro plots
  induction plots with
  | nil => intro st x h; exact h
  | cons p rest ih =>
    intro st x h
    exact cleanupPlot_anims_subset st p x (ih (cleanupPlot st p) x h)

/-- Fold version: the destroy log only grows. -/
theorem cleanupFold_destroyed_mono :
    ∀ (plots : List String) (st : WState) (x : String),
      x ∈ st.destroyed → x ∈ (cleanupChapterResources plots st).destroyed := by
  intro plots
  induction plots with
  | nil => intro st x h; exact h
  | cons p rest ih =>
    intro st x h
    exact ih (cleanupPlot st p) x (cleanupPlot_destroyed_mono st p x h)

/-- Fold version: the stop log only grows. -/
theorem cleanupFold_stopped_mono :
    ∀ (plots : List String) (st : WState) (x : String),
      x ∈ st.stopped → x ∈ (cleanupChapterResources plots st).stopped := by
  intro plots
  induction plots with
  | nil => intro st x h; exact h
  | cons p rest ih =>
    intro st x h
    exact ih (cleanupPlot st p) x (cleanupPlot_stopped_mono st p x h)

/-- Fold version: a chart key stays in the registry or gets logged as
destroyed. -/
theorem cleanupFold_charts_union :
    ∀ (plots : List String) (st : WState) (x : String),
      x ∈ st.activeCharts ∨ x ∈ st.destroyed →
      x ∈ (cleanupChapterResources plots st).activeCharts
        ∨ x ∈ (cleanupChapterResources plots st).destroyed := by
  intro plots
  induction plots with
  | nil => intro st x h; exact h
  | cons p rest ih =>
    intro st x h
    exact ih (cleanupPlot st p) x (cleanupPlot_charts_union st p x h)

/-- Fold version: an animation key stays in the registry or gets logged as
stopped. -/
theorem cleanupFold_anims_union :
    ∀ (plots : List String) (st : WState) (x : String),
      x ∈ st.activeAnimations ∨ x ∈ st.stopped →
      x ∈ (cleanupChapterResources plots st).activeAnimations
        ∨ x ∈ (cleanupChapterResources plots st).stopped := by
  intro plots
  induction plots with
  | nil => intro st x h; exact h
  | cons p rest ih =>
    intro st x h
    exact ih (cleanupPlot st p) x (cleanupPlot_anims_union st p x h)

/-- Every plot of the processed list ends up outside both registries. -/
theorem cleanupFold_notMem :
    ∀ (plots : List String) (st : WState) (p : String), p ∈ plots →
      p ∉ (cleanupChapterResources plots st).activeCharts
      ∧ p ∉ (cleanupChapterResources plots st).activeAnimations := by
  intro plots
  induction plots with
  | nil => intro st p h; cases h
  | cons q rest ih =>
    intro st p h
    rcases List.mem_cons.mp h with rfl | h
    · constructor
      · intro hmem
        exact cleanupPlot_charts_notMem st p
          (cleanupFold_charts_subset rest (cleanupPlot st p) p hmem)
      · intro hmem
        exact cleanupPlot_anims_notMem st p
          (cleanupFold_anims_subset rest (cleanupPlot st p) p hmem)
    · exact ih (cleanupPlot st q) p h

/-- Claim C2 (amended): collapsing a chapter releases the widget resources
of every plot inside it — each registered chart is destroyed and removed
from the active-charts registry, each registered animation is stopped and
removed from the active-animations registry, and no plot id inside the
chapter remains in either registry; collapsing a subsection, by contrast,
releases nothing (`toggleSubsection` leaves the registries untouched, see
`toggleSubsection_keeps_registry_cex`). -/
theorem toggleChapter_releases (ch : ChapterNode) (forceState : Option Bool)
    (st : WState) (hc : ch.hasContent = true)
    (hcollapse : forceState.getD (!ch.active) = false) :
    (toggleChapter ch forceState st).1.active = false
    ∧ (∀ pid ∈ ch.plots,
        pid ∉ (toggleChapter ch forceState st).2.activeCharts
        ∧ pid ∉ (toggleChapter ch forceState st).2.activeAnimations
        ∧ (pid ∈ st.activeCharts →
            pid ∈ (toggleChapter ch forceState st).2.destroyed)
        ∧ (pid ∈ st.activeAnimations →
            pid ∈ (toggleChapter ch forceState st).2.stopped))
    ∧ (∀ (sub : SubsectionNode) (fs : Option Bool) (wst : WState),
        (toggleSubsection sub fs wst).2 = wst) := by
  have hstep : toggleChapter ch forceState st
      = ({ ch with active := false }, cleanupChapterResources ch.plots st) := by
    unfold toggleChapter
    rw [if_neg (by simp [hc]), hcollapse, if_neg (by simp)]
  refine ⟨by rw [hstep], ?_, ?_⟩
  · intro pid hpid
    rw [hstep]
    obtain ⟨hnc, hna⟩ := cleanupFold_notMem ch.plots st pid hpid
    refine ⟨hnc, hna, ?_, ?_⟩
    · intro hin
      rcases cleanupFold_charts_union ch.plots st pid (Or.inl hin) with h | h
      · exact absurd h hnc
      · exact h
    · intro hin
      rcases cleanupFold_anims_union ch.plots st pid (Or.inl hin) with h | h
      · exact absurd h hna
      · exact h
  · intro sub fs wst
    unfold toggleSubsection
    split <;> rfl

/-- Witness for C2: collapsing a chapter that contains plot `"p1"` with an
active chart and an active animation empties both registries of `"p1"` and
logs its destruction and stop. -/
theorem toggleChapter_releases_witness :
    "p1" ∉ (toggleChapter chW none wstW).2.activeCharts
    ∧ "p1" ∉ (toggleChapter chW none wstW).2.activeAnimations
    ∧ "p1" ∈ (toggleChapter chW none wstW).2.destroyed
    ∧ "p1" ∈ (toggleChapter chW none wstW).2.stopped := by
  obtain ⟨-, h, -⟩ := toggleChapter_releases chW none wstW (by decide) (by decide)
  obtain ⟨h1, h2, h3, h4⟩ := h "p1" (by decide)
  exact ⟨h1, h2, h3 (by decide), h4 (by decide)⟩

/-- Counterexample to C10 as stated: from `simCexState` (mass 10, force 50,
friction 0.2, speed 1, canvas width 600) one frame ends with the block
exactly at `maxPosition` while its velocity is 6, not 0 — the code zeroes
the velocity only when the new position strictly exceeds `maxPosition`
(`if (state.position > state.maxPosition)`), so "once the block reaches the
maximum position its velocity is set to 0" fails. -/
theorem animateStep_exact_landing_cex :
    (animateStep 1 simCexState).position = (animateStep 1 simCexState).maxPosition
    ∧ (animateStep 1 simCexState).velocity ≠ 0 := by
  have hv : stepVelocity 1 simCexState = 6 := by
    rw [stepVelocity, simCexState]
    norm_num [simDt, gConst, ANIMATION_FPS]
  have hp : stepRawPosition 1 simCexState = 550 := by
    rw [stepRawPosition, hv, simCexState]
    norm_num [simDt, ANIMATION_FPS]
  rw [animateStep, hp, hv]
  norm_num [simCexState]

/-- Claim C10 (amended): with a nonnegative animation speed, each animate
frame and each reset preserves the invariant (velocity nonnegative,
position within `[0, maxPosition]`); the velocity is zeroed (and the
position clamped) exactly when the updated position strictly exceeds
`maxPosition` — a frame that lands exactly on `maxPosition` keeps its
velocity (see `animateStep_exact_landing_cex`). -/
theorem animateStep_inv_spec (speed : ℚ) (st : SimState)
    (hspeed : 0 ≤ speed) (hinv : SimInv st) :
    SimInv (animateStep speed st)
    ∧ (animateStep speed st).maxPosition = st.maxPosition
    ∧ (stepRawPosition speed st > st.maxPosition →
        (animateStep speed st).position = st.maxPosition
        ∧ (animateStep speed st).velocity = 0)
    ∧ (stepRawPosition speed st ≤ st.maxPosition →
        (animateStep speed st).position = stepRawPosition speed st
        ∧ (animateStep speed st).velocity = stepVelocity speed st)
    ∧ SimInv (resetSim st) := by
  obtain ⟨hv, hp0, hpm⟩ := hinv
  have hvel : 0 ≤ stepVelocity speed st := by
    rw [stepVelocity]
    exact le_max_left 0 _
  have hdt : 0 ≤ simDt speed := by
    rw [simDt, ANIMATION_FPS]
    positivity
  have hraw : st.position ≤ stepRawPosition speed st := by
    rw [stepRawPosition]
    nlinarith
  refine ⟨?_, ?_, ?_, ?_, ?_⟩
  · rw [animateStep]
    split
    · exact ⟨le_refl 0, le_trans hp0 hpm, le_refl _⟩
    · next h => exact ⟨hvel, le_trans hp0 hraw, not_lt.mp h⟩
  · rw [animateStep]; split <;> rfl
  · intro h
    rw [animateStep, if_pos h]
    exact ⟨rfl, rfl⟩
  · intro h
    rw [animateStep, if_neg (not_lt.mpr h)]
    exact ⟨rfl, rfl⟩
  · exact ⟨le_refl 0, le_refl 0, le_trans hp0 hpm⟩

/-- Witness for C10 at a concrete resting state with speed 1. -/
theorem animateStep_inv_spec_witness :
    SimInv (animateStep 1 simW) ∧ SimInv (resetSim simW) := by
  have h := animateStep_inv_spec 1 simW (by norm_num)
    (by refine ⟨le_refl 0, le_refl 0, ?_⟩; rw [simW]; norm_num)
  exact ⟨h.1, h.2.2.2.2⟩

/-- searchItemStep never rewrites the index data of an item. -/
theorem itemKey_searchItemStep (q : String) (it : SItem) :
    itemKey (searchItemStep q it) = itemKey it := by
  simp only [searchItemStep]
  split_ifs <;> rfl

/-- clearItemStep never rewrites the index data of an item. -/
theorem itemKey_clearItemStep (it : SItem) :
    itemKey (clearItemStep it) = itemKey it := by
  simp only [clearItemStep]
  split_ifs <;> rfl

/-- clearSearch preserves the index data of every item. -/
theorem clearSearch_itemKeys (st : SearchState) :
    (clearSearchState st).items.map itemKey = st.items.map itemKey := by
  show (st.items.map clearItemStep).map itemKey = _
  rw [List.map_map]
  simp [Function.comp_def, itemKey_clearItemStep]

/-- handleSearch preserves the index data of every item. -/
theorem handleSearch_itemKeys (raw : String) (st : SearchState) :
    (handleSearch raw st).items.map itemKey = st.items.map itemKey := by
  simp only [handleSearch]
  split
  · exact clearSearch_itemKeys st
  · show (st.items.map (searchItemStep (cleanQuery raw))).map itemKey = _
    rw [List.map_map]
    simp [Function.comp_def, itemKey_searchItemStep]

/-- Claim C5: buildSearchIndex yields a flat list with exactly one entry
per formula item of the loaded chapters, in document order (the sequence of
entries' elements is exactly the chapters' items, concatenated in chapter
order); each entry records the item element, its enclosing chapter (id and
title) and the item's text lowercased; and searching never rewrites the
indexed data — handleSearch and clearSearch preserve every item's indexed
text and chapter, so building the index is the only operation of the model
that writes it. -/
theorem buildSearchIndex_spec (doc : List ChapterDoc) :
    (buildSearchIndex doc).map IndexEntry.element = doc.flatMap ChapterDoc.items
    ∧ (∀ e ∈ buildSearchIndex doc,
        e.text = jsToLower e.element.textContent
        ∧ ∃ ch ∈ doc, e.chapId = ch.chapId ∧ e.chapterTitle = ch.title
            ∧ e.element ∈ ch.items)
    ∧ (∀ (raw : String) (st : SearchState),
        (handleSearch raw st).items.map itemKey = st.items.map itemKey)
    ∧ (∀ st : SearchState,
        (clearSearchState st).items.map itemKey = st.items.map itemKey) := by
  refine ⟨?_, ?_, handleSearch_itemKeys, clearSearch_itemKeys⟩
  · rw [buildSearchIndex, List.map_flatMap]
    simp [List.map_map, Function.comp_def]
  · intro e he
    rw [buildSearchIndex, List.mem_flatMap] at he
    obtain ⟨ch, hch, he⟩ := he
    rw [List.mem_map] at he
    obtain ⟨it, hit, rfl⟩ := he
    exact ⟨rfl, ch, hch, rfl, rfl, hit⟩

/-- Witness for C5: the single entry built from `docW` records the
lowercased text of its element. -/
theorem buildSearchIndex_spec_witness :
    entryW.text = jsToLower entryW.element.textContent :=
  ((buildSearchIndex_spec docW).2.1 entryW (by decide)).1

/-- A nonempty string has a nonempty character list. -/
theorem strData_ne_nil (q : String) (h : q ≠ "") : q.data ≠ [] := by
  intro hd
  apply h
  cases q with
  | mk l =>
    simp only at hd
    subst hd
    rfl

/-- A nonempty pattern does not occur in the empty string. -/
theorem strIncludes_empty (q : String) (hq : q ≠ "") :
    strIncludes "" q = false := by
  have h := strData_ne_nil q hq
  have hnil : ("" : String).data = [] := by decide
  rw [strIncludes, hnil]
  cases hd : q.data with
  | nil => exact absurd hd h
  | cons c cs => rfl

/-- A case-insensitive prefix match lowercases to the pattern. -/
theorem ciStartsWith_take_toLower :
    ∀ (q s : List Char), ciStartsWith q s = true →
      (s.take q.length).map Char.toLower = q := by
  intro q
  induction q with
  | nil => intro s _; simp
  | cons p ps ih =>
    intro s h
    cases s with
    | nil => simp [ciStartsWith] at h
    | cons c cs =>
      rw [ciStartsWith, Bool.and_eq_true, beq_iff_eq] at h
      obtain ⟨h1, h2⟩ := h
      simp [List.take_succ_cons, ih cs h2, h1]

/-- When the pattern occurs (case-insensitively) in the input, the
highlight scan yields a mark-wrapped span that lowercases to the
pattern. -/
theorem highlightGo_wraps :
    ∀ (n : Nat) (q s : List Char), s.length ≤ n → q ≠ [] →
      ciIncludesL q s = true →
      ∃ a m b, highlightGo q n s
          = a ++ markOpen.data ++ m ++ markClose.data ++ b
        ∧ m.map Char.toLower = q := by
  intro n
  induction n with
  | zero =>
    intro q s hs hq hinc
    have hnil : s = [] := List.eq_nil_of_length_eq_zero (Nat.le_zero.mp hs)
    subst hnil
    cases q with
    | nil => exact absurd rfl hq
    | cons p ps => simp [ciIncludesL, ciStartsWith] at hinc
  | succ n ih =>
    intro q s hs hq hinc
    cases s with
    | nil =>
      cases q with
      | nil => exact absurd rfl hq
      | cons p ps => simp [ciIncludesL, ciStartsWith] at hinc
    | cons c cs =>
      by_cases hsw : ciStartsWith q (c :: cs) = true
      · refine ⟨[], (c :: cs).take q.length,
          highlightGo q n ((c :: cs).drop q.length), ?_,
          ciStartsWith_take_toLower q (c :: cs) hsw⟩
        rw [highlightGo, if_pos hsw]
        simp
      · have hinc' : ciIncludesL q cs = true := by
          rw [ciIncludesL, Bool.or_eq_true] at hinc
          rcases hinc with h | h
          · exact absurd h hsw
          · exact h
        obtain ⟨a, m, b, he, hm⟩ := ih q cs
          (by simp only [List.length_cons] at hs; omega) hq hinc'
        refine ⟨c :: a, m, b, ?_, hm⟩
        rw [highlightGo, if_neg hsw, he]
        simp

/-- When the pattern does not occur, the highlight scan leaves the input
unchanged. -/
theorem highlightGo_id :
    ∀ (n : Nat) (q s : List Char), ciIncludesL q s = false →
      highlightGo q n s = s := by
  intro n
  induction n with
  | zero => intro q s _; cases s <;> rfl
  | succ n ih =>
    intro q s hinc
    cases s with
    | nil => rfl
    | cons c cs =>
      rw [ciIncludesL, Bool.or_eq_false_iff] at hinc
      obtain ⟨h1, h2⟩ := hinc
      rw [highlightGo, if_neg (by simp [h1]), ih q cs h2]

/-- String-level version of `highlightGo_wraps`: the replaced content of a
matching item contains a mark-wrapped copy of the query whenever the query
occurs case-insensitively in the saved content. -/
theorem ciReplaceAll_wraps (q s : String) (hq : q ≠ "")
    (h : ciIncludes s q = true) :
    ∃ a m b, (ciReplaceAll q s).data
        = a ++ markOpen.data ++ m ++ markClose.data ++ b
      ∧ m.map Char.toLower = q.data := by
  obtain ⟨a, m, b, he, hm⟩ := highlightGo_wraps s.data.length q.data s.data
    (le_refl _) (strData_ne_nil q hq) h
  exact ⟨a, m, b, he, hm⟩

/-- String-level version of `highlightGo_id`: no spurious marks. -/
theorem ciReplaceAll_id (q s : String) (h : ciIncludes s q = false) :
    ciReplaceAll q s = s := by
  rw [ciReplaceAll, highlightGo_id s.data.length q.data s.data h]

/-- With a nonempty cleaned query, handleSearch takes the search branch. -/
theorem handleSearch_eq (raw : String) (st : SearchState)
    (hq : cleanQuery raw ≠ "") :
    handleSearch raw st
      = { items := st.items.map (searchItemStep (cleanQuery raw)),
          chapters := st.chapters.map
            (chapterSearchStep (cleanQuery raw) st.items),
          noResultsHidden := st.items.any (itemMatches (cleanQuery raw)) } := by
  simp only [handleSearch]
  rw [if_neg hq]

/-- The per-item `hidden` class after a search records exactly whether the
query is a substring of the indexed text. -/
theorem searchItemStep_hidden (q : String) (it : SItem) :
    (searchItemStep q it).hidden = !(strIncludes it.text q) := by
  simp only [searchItemStep, itemMatches]
  split_ifs <;> rfl

/-- A matching item saves a base content (the previously saved copy if
truthy, else the current innerHTML) and rebuilds its innerHTML from it by
the global case-insensitive replace. -/
theorem searchItemStep_match (q : String) (it : SItem)
    (hm : strIncludes it.text q = true) :
    ∃ base, (searchItemStep q it).originalContent = some base
      ∧ (searchItemStep q it).html = ciReplaceAll q base := by
  cases hoc : it.originalContent with
  | none =>
    exact ⟨it.html, by simp [searchItemStep, itemMatches, hm, hoc, truthyOpt],
      by simp [searchItemStep, itemMatches, hm, hoc, truthyOpt]⟩
  | some s =>
    by_cases hs : s = ""
    · subst hs
      exact ⟨it.html,
        by simp [searchItemStep, itemMatches, hm, hoc, truthyOpt],
        by simp [searchItemStep, itemMatches, hm, hoc, truthyOpt]⟩
    · exact ⟨s, by simp [searchItemStep, itemMatches, hm, hoc, truthyOpt, hs],
        by simp [searchItemStep, itemMatches, hm, hoc, truthyOpt, hs]⟩

/-- A non-matching item with a truthy saved copy has it restored into its
innerHTML. -/
theorem searchItemStep_nonmatch (q : String) (it : SItem)
    (hm : strIncludes it.text q = false)
    (ht : truthyOpt it.originalContent = true) :
    (searchItemStep q it).html = it.originalContent.getD "" := by
  simp [searchItemStep, itemMatches, hm, ht]

/-- A chapter is left visible by a search iff it contains a matching
indexed item. -/
theorem chapterSearchStep_hidden (q : String) (items : List SItem)
    (c : SChapter) :
    ((chapterSearchStep q items c).hidden = false
      ↔ ∃ it ∈ items, it.chapId = c.chapId ∧ strIncludes it.text q = true) := by
  simp [chapterSearchStep, List.any_eq_true, itemMatches]

/-- Claim C6 (amended): for every query that is nonempty after lowercasing
and trimming and contains no regex metacharacters, an indexed item is left
visible iff the cleaned query is a substring of its indexed lowercased
text; a matching item's innerHTML is rebuilt from its saved content by the
global case-insensitive replace, which inserts a mark-wrapped copy of the
query whenever the query occurs in the saved content and leaves the content
unchanged otherwise (the wrapped spans are the leftmost non-overlapping
occurrences — overlapping occurrences are not all wrapped, see
`handleSearch_overlap_cex`); a non-matching item with a saved copy is
restored; a chapter is left visible iff it contains a matching item; and
the no-results message is shown iff no item matches. -/
theorem handleSearch_spec (raw : String) (st : SearchState)
    (hq : cleanQuery raw ≠ "")
    (hsafe : regexSafe (cleanQuery raw) = true) :
    (handleSearch raw st).items
        = st.items.map (searchItemStep (cleanQuery raw))
    ∧ (∀ it ∈ st.items,
        (searchItemStep (cleanQuery raw) it).hidden
          = !(strIncludes it.text (cleanQuery raw)))
    ∧ (∀ it ∈ st.items, strIncludes it.text (cleanQuery raw) = true →
        ∃ base, (searchItemStep (cleanQuery raw) it).originalContent = some base
          ∧ (searchItemStep (cleanQuery raw) it).html
              = ciReplaceAll (cleanQuery raw) base
          ∧ (ciIncludes base (cleanQuery raw) = true →
              ∃ a m b, (searchItemStep (cleanQuery raw) it).html.data
                  = a ++ markOpen.data ++ m ++ markClose.data ++ b
                ∧ m.map Char.toLower = (cleanQuery raw).data)
          ∧ (ciIncludes base (cleanQuery raw) = false →
              (searchItemStep (cleanQuery raw) it).html = base))
    ∧ (∀ it ∈ st.items, strIncludes it.text (cleanQuery raw) = false →
        truthyOpt it.originalContent = true →
        (searchItemStep (cleanQuery raw) it).html
          = it.originalContent.getD "")
    ∧ (handleSearch raw st).chapters
        = st.chapters.map (chapterSearchStep (cleanQuery raw) st.items)
    ∧ (∀ c ∈ st.chapters,
        ((chapterSearchStep (cleanQuery raw) st.items c).hidden = false
          ↔ ∃ it ∈ st.items, it.chapId = c.chapId
              ∧ strIncludes it.text (cleanQuery raw) = true))
    ∧ ((handleSearch raw st).noResultsHidden = false
        ↔ ∀ it ∈ st.items, strIncludes it.text (cleanQuery raw) = false) := by
  refine ⟨by rw [handleSearch_eq raw st hq],
    fun it _ => searchItemStep_hidden (cleanQuery raw) it, ?_,
    fun it _ => searchItemStep_nonmatch (cleanQuery raw) it,
    by rw [handleSearch_eq raw st hq],
    fun c _ => chapterSearchStep_hidden (cleanQuery raw) st.items c, ?_⟩
  · intro it _ hm
    obtain ⟨base, hoc, hhtml⟩ := searchItemStep_match (cleanQuery raw) it hm
    refine ⟨base, hoc, hhtml, ?_, ?_⟩
    · intro hci
      rw [hhtml]
      exact ciReplaceAll_wraps (cleanQuery raw) base hq hci
    · intro hci
      rw [hhtml]
      exact ciReplaceAll_id (cleanQuery raw) base hci
  · rw [handleSearch_eq raw st hq]
    simp [List.any_eq_false, itemMatches]

/-- Witness for C6 at a concrete state: the raw query `"AB "` cleans to
`"ab"`, and the search branch filters the single item. -/
theorem handleSearch_spec_witness :
    (handleSearch "AB " stW).items
      = stW.items.map (searchItemStep (cleanQuery "AB ")) :=
  (handleSearch_spec "AB " stW (by decide) (by decide)).1

/-- Counterexample to C6 as stated: for the query `"aa"` on an item whose
content is `"aaa"`, the query occurs at two (overlapping) positions but the
rebuilt innerHTML contains a single highlight mark — each mark wraps one
span that lowercases to the query, so with two occurrences and one mark not
every occurrence of the query is wrapped. -/
theorem handleSearch_overlap_cex :
    (handleSearch "aa" stOverlap).items.map SItem.html
      = ["<mark class=\"highlight\">aa</mark>a"]
    ∧ countOccCI "aa" "aaa" = 2
    ∧ countSub markOpen "<mark class=\"highlight\">aa</mark>a" = 1 := by decide

/-- One search step preserves `ItemInv`: the first match saves the pristine
innerHTML (necessarily truthy, since an item with empty pristine innerHTML
has empty text and cannot match a nonempty query); later steps only rebuild
or restore the innerHTML from the saved copy. -/
theorem searchItemStep_inv (q h0 tx : String) (cid : Nat) (it : SItem)
    (hq : q ≠ "") (hwf : h0 = "" → tx = "")
    (hinv : ItemInv h0 tx cid it) :
    ItemInv h0 tx cid (searchItemStep q it) := by
  obtain ⟨htx, hcid, hcase⟩ := hinv
  refine ⟨?_, ?_, ?_⟩
  · rw [show (searchItemStep q it).text = it.text from
      congrArg Prod.fst (itemKey_searchItemStep q it), htx]
  · rw [show (searchItemStep q it).chapId = it.chapId from
      congrArg Prod.snd (itemKey_searchItemStep q it), hcid]
  · rcases hcase with ⟨hoc, hh⟩ | ⟨hoc, hne⟩
    · by_cases hm : strIncludes it.text q = true
      · have hne : h0 ≠ "" := by
          intro h0e
          rw [htx, hwf h0e] at hm
          rw [strIncludes_empty q hq] at hm
          cases hm
        right
        constructor
        · simp [searchItemStep, itemMatches, hm, hoc, truthyOpt, hh]
        · exact hne
      · left
        rw [Bool.not_eq_true] at hm
        exact ⟨by simp [searchItemStep, itemMatches, hm, hoc, truthyOpt],
          by simp [searchItemStep, itemMatches, hm, hoc, truthyOpt, hh]⟩
    · right
      refine ⟨?_, hne⟩
      by_cases hm : strIncludes it.text q = true
      · simp [searchItemStep, itemMatches, hm, hoc, truthyOpt, hne]
      · rw [Bool.not_eq_true] at hm
        simp [searchItemStep, itemMatches, hm, hoc, truthyOpt, hne]

/-- clearSearch turns an `ItemInv` item back into its pristine form with
the saved copy deleted, the `hidden` class removed, and the pristine
innerHTML in place. -/
theorem clearItemStep_inv (h0 tx : String) (cid : Nat) (it : SItem)
    (hinv : ItemInv h0 tx cid it) :
    clearItemStep it = { text := tx, chapId := cid, html := h0,
                         originalContent := none, hidden := false } := by
  obtain ⟨text, chapId, html, oc, hidden⟩ := it
  obtain ⟨htx, hcid, hcase⟩ := hinv
  simp only at htx hcid
  subst htx hcid
  rcases hcase with ⟨hoc, hh⟩ | ⟨hoc, hne⟩
  · simp only at hoc hh
    subst hoc hh
    simp [clearItemStep, truthyOpt]
  · simp only at hoc
    subst hoc
    simp [clearItemStep, truthyOpt, hne]

/-- A `Forall₂` whose relation pins the right element to a function of the
left one is a `map` equation. -/
theorem forall₂_map_eq {α β : Type} (f : α → β) :
    ∀ {l : List α} {l2 : List β},
      List.Forall₂ (fun a b => b = f a) l l2 → l2 = l.map f := by
  intro l l2 h
  induction h with
  | nil => rfl
  | cons h1 _ ih => simp [h1, ih]

/-- Any sequence of nonempty searches keeps every item related to its
pristine form by `ItemInv`. -/
theorem searchFold_inv (queries : List String)
    (hq : ∀ r ∈ queries, cleanQuery r ≠ "") :
    ∀ (st0 st : SearchState),
      List.Forall₂ (fun it0 it => (it0.html = "" → it0.text = "")
        ∧ ItemInv it0.html it0.text it0.chapId it) st0.items st.items →
      List.Forall₂ (fun it0 it => (it0.html = "" → it0.text = "")
        ∧ ItemInv it0.html it0.text it0.chapId it) st0.items
        (queries.foldl (fun s r => handleSearch r s) st).items := by
  induction queries with
  | nil => intro st0 st h; exact h
  | cons r rest ih =>
    intro st0 st h
    rw [List.foldl_cons]
    refine ih (fun r' hr' => hq r' (List.mem_cons_of_mem _ hr')) st0
      (handleSearch r st) ?_
    rw [handleSearch_eq r st (hq r (List.mem_cons_self r rest))]
    rw [List.forall₂_map_right_iff]
    refine h.imp ?_
    intro it0 it hrel
    exact ⟨hrel.1, searchItemStep_inv (cleanQuery r) it0.html it0.text
      it0.chapId it (hq r (List.mem_cons_self r rest)) hrel.1 hrel.2⟩

/-- Claim C9: starting from a pristine state (no saved copies; an item with
empty innerHTML has empty indexed text, as `textContent` of an empty
element is empty), after any sequence of searches that are nonempty once
cleaned, clearSearch restores every formula item's innerHTML to its
pristine content, deletes every saved copy, removes the `hidden` class from
every item and every chapter, and hides the no-results message. -/
theorem clearSearch_roundtrip (queries : List String) (st : SearchState)
    (hp : ∀ it ∈ st.items, it.originalContent = none)
    (hwf : ∀ it ∈ st.items, it.html = "" → it.text = "")
    (hq : ∀ r ∈ queries, cleanQuery r ≠ "") :
    (clearSearchState (queries.foldl (fun s r => handleSearch r s) st)).items
        = st.items.map (fun it =>
            { text := it.text, chapId := it.chapId, html := it.html,
              originalContent := none, hidden := false })
    ∧ (∀ c ∈ (clearSearchState
          (queries.foldl (fun s r => handleSearch r s) st)).chapters,
        c.hidden = false)
    ∧ (clearSearchState
          (queries.foldl (fun s r => handleSearch r s) st)).noResultsHidden
        = true := by
  have hinit : List.Forall₂ (fun it0 it => (it0.html = "" → it0.text = "")
      ∧ ItemInv it0.html it0.text it0.chapId it) st.items st.items := by
    rw [List.forall₂_same]
    intro it hit
    exact ⟨hwf it hit, rfl, rfl, Or.inl ⟨hp it hit, rfl⟩⟩
  have hN := searchFold_inv queries hq st st hinit
  refine ⟨?_, ?_, rfl⟩
  · show ((queries.foldl (fun s r => handleSearch r s) st).items.map
        clearItemStep) = _
    refine forall₂_map_eq _ ?_
    rw [List.forall₂_map_right_iff]
    refine hN.imp ?_
    intro it0 it hrel
    exact clearItemStep_inv it0.html it0.text it0.chapId it hrel.2
  · intro c hc
    obtain ⟨c0, _, rfl⟩ := List.mem_map.mp hc
    rfl

/-- Witness for C9: one search for `"AB "` on the concrete state, then
clearSearch, restores the single item byte for byte. -/
theorem clearSearch_roundtrip_witness :
    (clearSearchState (["AB "].foldl (fun s r => handleSearch r s) stW)).items
      = stW.items.map (fun it =>
          { text := it.text, chapId := it.chapId, html := it.html,
            originalContent := none, hidden := false }) :=
  (clearSearch_roundtrip ["AB "] stW (by decide) (by decide) (by decide)).1

end Noter
